import Mathlib

/-!
Verification of the two anchor-patching scripts of this repository
(`apply-fixes.py` and `update-doc.py`) against their specification.

File content is modelled as `List Char` (Python `str`).  `pyReplace`
models Python's `str.replace(old, new)` (replace every non-overlapping
occurrence, scanning left to right); `pyFind` models `str.find(sub)`
(`none` for Python's `-1`).  The only regular expression in the sources,
`r"tokenExchangeUsed: !!this\.tokenExchangeService"`, is an escaped
literal, and `re.sub` with a literal pattern replaces all
non-overlapping matches left to right exactly as `str.replace` does, so
its call is embedded through `pyReplace` on the unescaped literal.

The payload constants below are transcribed verbatim from the Python
sources; braces, apostrophes, backticks and non-ASCII characters are
written with string escapes (`\x7b`, `\x7d`, `\x27`, `\x60`, `\uXXXX`).
The large `PHASE_72_DOC` payload is written as the concatenation of four
consecutive chunks (`docPart1 ++ docPart2 ++ docPart3 ++ docPart4`) so
that each literal stays small enough for kernel evaluation; their
concatenation is exactly the source string.
-/

/-- Python `str.find`: index of the first occurrence of `pat`, `none` when
absent (Python returns `-1`). -/
def pyFind (pat : List Char) : List Char → Option Nat
  | [] => if pat.isPrefixOf ([] : List Char) then some 0 else none
  | c :: cs =>
    if pat.isPrefixOf (c :: cs) then some 0
    else (pyFind pat cs).map (· + 1)

/-- Fuel-driven scanner behind `pyReplace`; the fuel only bounds the number
of scan steps so that the recursion is structural (hence evaluable by the
kernel).  With fuel at least the length of the input it performs Python's
`str.replace`: at each position, if `pat` matches, emit `rep` and skip the
match, otherwise keep the character and move on. -/
def replFuel (pat rep : List Char) : Nat → List Char → List Char
  | _, [] => []
  | 0, t => t
  | fuel + 1, c :: cs =>
    if pat.isPrefixOf (c :: cs) then
      rep ++ replFuel pat rep fuel (cs.drop (pat.length - 1))
    else
      c :: replFuel pat rep fuel cs

/-- Python `str.replace(pat, rep)` for a non-empty `pat` (every anchor and
pattern in the sources is non-empty; Python's special behaviour for an
empty `pat` is not modelled). -/
def pyReplace (pat rep t : List Char) : List Char :=
  replFuel pat rep t.length t

/-- `pat` occurs somewhere in `s` (the specification's "anchor is found"). -/
def Occurs (pat s : List Char) : Prop := ∃ i, pat <+: s.drop i

/-- Outcome of one script run: the content written back to the target file
(`none` when the script terminates without writing), the process exit code,
and the lines printed. -/
structure RunResult where
  written : Option (List Char)
  exitCode : Nat
  printed : List String
deriving DecidableEq, Repr

/-! ### `apply-fixes.py`

The script reads the target file, applies Fix #3, Fix #1 and Fix #2 in
that order (two literal `str.replace` calls and one `re.sub` with a
literal pattern), writes the result back unconditionally, prints four
fixed success lines and exits 0. -/

/-- Fix #3 anchor (`content.replace`, first call): the `requiredClaim`
interface fragment. -/
def fix3Anchor : List Char :=
  "  /** Required claim in TE-JWT (e.g., legacy_name) */\n  requiredClaim?: string;\n\n  /** Token cache configuration */".toList

/-- Fix #3 replacement: the same fragment with the `rolesClaim` field added. -/
def fix3Repl : List Char :=
  "  /** Required claim in TE-JWT (e.g., legacy_name) */\n  requiredClaim?: string;\n\n  /** Roles claim path in TE-JWT (default: \x27roles\x27) */\n  rolesClaim?: string;\n\n  /** Token cache configuration */".toList

/-- Fix #1 anchor (`content.replace`, second call): the fragment setting
`effectiveLegacyUsername` followed by the original `console.log`. -/
def fix1Anchor : List Char :=
  "        // Use claim value as legacy username\n        effectiveLegacyUsername = claimValue as string;\n\n        console.log(\x27[PostgreSQLModule] Token exchange successful:\x27, \x7b\n          legacyUsername: effectiveLegacyUsername,\n          idpName: this.tokenExchangeConfig.idpName,\n        \x7d);".toList

/-- Fix #1 replacement: the same fragment with the role-extraction lines
inserted and the `console.log` extended. -/
def fix1Repl : List Char :=
  "        // Use claim value as legacy username\n        effectiveLegacyUsername = claimValue as string;\n\n        // Extract roles from TE-JWT (may be in \x27roles\x27, \x27user_roles\x27, or other claim)\n        const rolesClaimPath = this.tokenExchangeConfig.rolesClaim || \x27roles\x27;\n        const teRoles = (Array.isArray(teClaims?.[rolesClaimPath])\n          ? teClaims[rolesClaimPath]\n          : []) as string[];\n\n        console.log(\x27[PostgreSQLModule] Token exchange successful:\x27, \x7b\n          legacyUsername: effectiveLegacyUsername,\n          roles: teRoles,\n          rolesClaimPath,\n          idpName: this.tokenExchangeConfig.idpName,\n        \x7d);".toList

/-- Fix #2 pattern: `re.sub` is called with the regular expression
`tokenExchangeUsed: !!this\.tokenExchangeService`, an escaped literal which
matches exactly this string. -/
def fix2Pattern : List Char :=
  "tokenExchangeUsed: !!this.tokenExchangeService".toList

/-- Fix #2 replacement. -/
def fix2Repl : List Char :=
  "tokenExchangeUsed: !!this.tokenExchangeConfig".toList

/-- The first `content.replace` call (Fix #3). -/
def applyFix3 (c : List Char) : List Char := pyReplace fix3Anchor fix3Repl c

/-- The second `content.replace` call (Fix #1). -/
def applyFix1 (c : List Char) : List Char := pyReplace fix1Anchor fix1Repl c

/-- The `re.sub` call (Fix #2), a literal-pattern substitution. -/
def applyFix2 (c : List Char) : List Char := pyReplace fix2Pattern fix2Repl c

/-- The whole content transform of `apply-fixes.py`: Fix #3, then Fix #1,
then Fix #2, each applied to the output of the previous one. -/
def applyFixesContent (c : List Char) : List Char :=
  applyFix2 (applyFix1 (applyFix3 c))

/-- The four lines `apply-fixes.py` prints, unconditionally, after writing. -/
def applyFixesSuccessLines : List String :=
  ["✅ All 3 fixes applied successfully!",
   "   Fix #1: Added role extraction from TE-JWT",
   "   Fix #2: Fixed this.tokenExchangeService → this.tokenExchangeConfig",
   "   Fix #3: Added rolesClaim field to TokenExchangeConfig interface"]

/-- A run of `apply-fixes.py` on file content `c`: the transformed content
is always written back, the success lines are always printed, and the
process exits 0 (the script has no error path after the read succeeds). -/
def applyFixesRun (c : List Char) : RunResult :=
  ⟨some (applyFixesContent c), 0, applyFixesSuccessLines⟩

/-- A run of `apply-fixes.py` including the initial file read: `none`
models an unreadable file, in which case `open` raises, the uncaught
exception terminates the process with a nonzero exit code and nothing is
ever written (the only write is the last statement of the script). -/
def applyFixesMain : Option (List Char) → RunResult
  | none => ⟨none, 1, []⟩
  | some c => applyFixesRun c

/-! ### `update-doc.py`

The script reads `Token-Exchange.md`, searches for a fixed anchor with
`content.find`; on `-1` it prints an error and exits 1 without writing;
otherwise it rebuilds the content as
`content[:ip] ++ insPre ++ PHASE_72_DOC ++ insPost ++ content[ip + len(anchor):]`
and writes it back. -/

/-- The anchor searched with `content.find` (line 58 of the script). -/
def updateAnchor : List Char :=
  "**Build Verification:** ✅ All builds successful after fix\n\n---\n\n## Key Decisions".toList

/-- The literal re-emitted before `PHASE_72_DOC` when rebuilding the
content (line 65). -/
def insPre : List Char :=
  "**Build Verification:** ✅ All builds successful after fix\n\n---\n".toList

/-- The literal re-emitted after `PHASE_72_DOC` when rebuilding the
content (line 65). -/
def insPost : List Char :=
  "\n## Key Decisions".toList

/-- First quarter of the `PHASE_72_DOC` payload. -/
def docPart1 : List Char :=
  "\n### Phase 7.2: Fix Undefined teRoles Variable - COMPLETED (2025-01-06)\n\n**Problem:** Runtime error \x60ReferenceError: teRoles is not defined\x60 in PostgreSQL module\n\n**Root Cause:** After token exchange completed and \x60legacy_name\x60 was extracted from TE-JWT (line 369), the code forgot to extract the \x60roles\x60 claim from the same TE-JWT before using it on lines 419-420.\n\n**Solution:** Extract roles from TE-JWT after extracting legacy username\n\n**Changes Made:**\n- [x] Added \x60rolesClaim?: string\x60 field to \x60TokenExchangeConfig\x60 interface (line 50-51)\n- [x] Added role extraction logic after line 369 (5 lines of code):\n  \x60\x60\x60typescript\n".toList

/-- Second quarter of the `PHASE_72_DOC` payload. -/
def docPart2 : List Char :=
  "  // Extract roles from TE-JWT (may be in \x27roles\x27, \x27user_roles\x27, or other claim)\n  const rolesClaimPath = this.tokenExchangeConfig.rolesClaim || \x27roles\x27;\n  const teRoles = (Array.isArray(teClaims?.[rolesClaimPath])\n    ? teClaims[rolesClaimPath]\n    : []) as string[];\n  \x60\x60\x60\n- [x] Updated console.log to show extracted roles (lines 374-378)\n- [x] Fixed incorrect \x60this.tokenExchangeService\x60 references → \x60this.tokenExchangeConfig\x60 (lines 456, 473)\n\n**Files Changed:**\n- \x60packages/sql-delegation/src/postgresql-module.ts\x60 - 3 fixes applied (~15 lines changed)\n\n**Design Alignment:**\n".toList

/-- Third quarter of the `PHASE_72_DOC` payload. -/
def docPart3 : List Char :=
  "This fix implements the missing role extraction specified in the design document (Unified OAuth & Token Exchange Implementation plan.md lines 523-527):\n\n\x60\x60\x60typescript\n// CRITICAL: Decode TE-JWT for legacy authorization\nconst delegationClaims = decodeJWT(delegationToken);\n\n// Extract TE-JWT authorization (NOT requestor JWT!)\nconst legacyUsername = delegationClaims.legacy_name;      // ✅ Already implemented\nconst legacyRoles = delegationClaims.roles || [];         // ✅ FIXED in Phase 7.2\nconst legacyPermissions = delegationClaims.permissions || []; // Can be added later\n\x60\x60\x60\n\n".toList

/-- Last quarter of the `PHASE_72_DOC` payload. -/
def docPart4 : List Char :=
  "**Build Verification:** ✅ All builds successful after fix\n- Core: ✅ (61ms)\n- @mcp-oauth/sql-delegation: ✅ (11ms)\n\n**Security Impact:** ✅ POSITIVE - TE-JWT roles now properly extracted and used for SQL authorization\n\n---\n\n".toList

/-- The `PHASE_72_DOC` payload block inserted by the script (the four
chunks concatenated give exactly the source string). -/
def phase72Doc : List Char := docPart1 ++ docPart2 ++ docPart3 ++ docPart4

/-- The rebuilt content of `update-doc.py` (line 65 of the script) once the
anchor has been found at index `ip`. -/
def updateDocPatched (c : List Char) (ip : Nat) : List Char :=
  c.take ip ++ insPre ++ phase72Doc ++ insPost ++ c.drop (ip + updateAnchor.length)

/-- A run of `update-doc.py` on file content `c`: if the anchor is absent
the script prints an error and exits 1 without writing; otherwise it writes
the rebuilt content, prints a success line and exits 0. -/
def updateDocRun (c : List Char) : RunResult :=
  match pyFind updateAnchor c with
  | none => ⟨none, 1, ["ERROR: Could not find insertion point"]⟩
  | some ip => ⟨some (updateDocPatched c ip), 0,
      ["SUCCESS: Added Phase 7.2 documentation to Token-Exchange.md"]⟩

/-- A run of `update-doc.py` including the initial file read (`none`
models an unreadable file: the uncaught exception terminates the process
before any write). -/
def updateDocMain : Option (List Char) → RunResult
  | none => ⟨none, 1, []⟩
  | some c => updateDocRun c

/-- `n`-fold concatenation of a block, used to state that every
occurrence of an anchor is replaced. -/
def repConcat (n : Nat) (x : List Char) : List Char :=
  match n with
  | 0 => []
  | n + 1 => x ++ repConcat n x

/-- `true` when no nonempty tail of `x` is a prefix of `y` (scans the tails
of `x` once, so `decide` evaluates it in linear time). -/
def noTailStarts : List Char → List Char → Bool
  | [], _ => true
  | c :: cs, y => !((c :: cs).isPrefixOf y) && noTailStarts cs y

/-- `true` when no nonempty tail of `x` is a prefix of `y` and `y` is not a
prefix of any nonempty tail of `x`. -/
def noAlignTails : List Char → List Char → Bool
  | [], _ => true
  | c :: cs, y => !((c :: cs).isPrefixOf y) && !(y.isPrefixOf (c :: cs)) && noAlignTails cs y

/-- Side conditions under which a replacement by `rep` can never
materialise an occurrence of `pat2`: `pat2` does not occur in `rep`, no
nonempty suffix of `rep` is a prefix of `pat2`, and no nonempty proper
suffix of `pat2` aligns with `rep` in either direction.  All three
anchor/replacement pairs of `apply-fixes.py` satisfy these conditions
(checked by `decide`). -/
def SafeFor (pat2 rep : List Char) : Prop :=
  pyFind pat2 rep = none ∧
  noTailStarts rep pat2 = true ∧
  noAlignTails (pat2.drop 1) rep = true

-- sanity checks: concrete evaluation of the embedding
example : pyReplace "foo".toList "bar".toList "foofoo".toList = "barbar".toList := by decide
example : pyReplace "Y".toList "Y2".toList "X\nY\nZ".toList = "X\nY2\nZ".toList := by decide
example : pyFind "b".toList "abc".toList = some 1 := by decide
example : pyFind "d".toList "abc".toList = none := by decide
example : pyReplace "aba".toList "b".toList "aabaa".toList = "aba".toList := by decide
example : updateAnchor = insPre ++ insPost := by decide

set_option maxRecDepth 4000

/-! ### Basic facts about `Occurs`, `pyFind` and `pyReplace` -/

theorem occurs_cons {A cs : List Char} {c : Char} (h : Occurs A cs) : Occurs A (c :: cs) := by
  obtain ⟨i, hi⟩ := h
  exact ⟨i + 1, by simpa using hi⟩

theorem occurs_drop {A s : List Char} {k : Nat} (h : Occurs A (s.drop k)) : Occurs A s := by
  obtain ⟨i, hi⟩ := h
  rw [List.drop_drop] at hi
  exact ⟨k + i, hi⟩

theorem occurs_cons_iff {A cs : List Char} {c : Char} :
    Occurs A (c :: cs) ↔ A <+: c :: cs ∨ Occurs A cs := by
  constructor
  · rintro ⟨i, hi⟩
    match i with
    | 0 => exact Or.inl hi
    | i + 1 => exact Or.inr ⟨i, by simpa using hi⟩
  · rintro (h | h)
    · exact ⟨0, h⟩
    · exact occurs_cons h

theorem occurs_nil_iff {A : List Char} : Occurs A [] ↔ A = [] := by
  constructor
  · rintro ⟨i, hi⟩
    simpa [List.prefix_nil] using hi
  · rintro rfl
    exact ⟨0, List.nil_prefix⟩

theorem pyFind_eq_none_iff {A s : List Char} : pyFind A s = none ↔ ¬ Occurs A s := by
  induction s with
  | nil =>
    by_cases hA : A = []
    · subst hA
      simp [pyFind, occurs_nil_iff, List.isPrefixOf_iff_prefix]
    · have hf : A.isPrefixOf ([] : List Char) = false := by
        rw [Bool.eq_false_iff]
        intro hc
        exact hA (List.prefix_nil.mp (List.isPrefixOf_iff_prefix.mp hc))
      simp [pyFind, hf, occurs_nil_iff, hA]
  | cons c cs ih =>
    by_cases h : A.isPrefixOf (c :: cs)
    · constructor
      · intro hn
        rw [pyFind, if_pos h] at hn
        exact absurd hn (by simp)
      · intro hno
        exact absurd ⟨0, List.isPrefixOf_iff_prefix.mp h⟩ hno
    · rw [pyFind, if_neg h, Option.map_eq_none', ih, occurs_cons_iff]
      constructor
      · rintro hno (hp | ho)
        · exact h (List.isPrefixOf_iff_prefix.mpr hp)
        · exact hno ho
      · intro hno ho
        exact hno (Or.inr ho)

theorem pyFind_some_at {A s : List Char} :
    ∀ {i}, pyFind A s = some i → A <+: s.drop i := by
  induction s with
  | nil =>
    intro i h
    rw [pyFind] at h
    split at h
    · next hp =>
      cases h
      simpa using List.isPrefixOf_iff_prefix.mp hp
    · exact absurd h (by simp)
  | cons c cs ih =>
    intro i h
    rw [pyFind] at h
    split at h
    · next hp =>
      cases h
      simpa using List.isPrefixOf_iff_prefix.mp hp
    · next hp =>
      rw [Option.map_eq_some'] at h
      obtain ⟨i', hi', rfl⟩ := h
      simpa using ih hi'

theorem pyFind_some_min {A s : List Char} :
    ∀ {i}, pyFind A s = some i → ∀ j, j < i → ¬ A <+: s.drop j := by
  induction s with
  | nil =>
    intro i h j hj
    rw [pyFind] at h
    split at h
    · cases h
      omega
    · exact absurd h (by simp)
  | cons c cs ih =>
    intro i h j hj
    rw [pyFind] at h
    split at h
    · cases h
      omega
    · next hp =>
      rw [Option.map_eq_some'] at h
      obtain ⟨i', hi', rfl⟩ := h
      match j with
      | 0 =>
        intro hc
        exact hp (List.isPrefixOf_iff_prefix.mpr (by simpa using hc))
      | j + 1 =>
        rw [List.drop_succ_cons]
        exact ih hi' j (by omega)

theorem pyFind_some_intro {A s : List Char} :
    ∀ {i}, A <+: s.drop i → (∀ j, j < i → ¬ A <+: s.drop j) → pyFind A s = some i := by
  induction s with
  | nil =>
    intro i hp hmin
    rw [List.drop_nil] at hp
    match i with
    | 0 =>
      rw [pyFind, if_pos (List.isPrefixOf_iff_prefix.mpr hp)]
    | i + 1 =>
      exact absurd (by simpa using hp) (by simpa using hmin 0 (by omega))
  | cons c cs ih =>
    intro i hp hmin
    match i with
    | 0 =>
      rw [pyFind, if_pos (List.isPrefixOf_iff_prefix.mpr (by simpa using hp))]
    | i + 1 =>
      have h0 : ¬ A.isPrefixOf (c :: cs) := by
        intro hc
        exact hmin 0 (by omega) (by simpa using List.isPrefixOf_iff_prefix.mp hc)
      rw [pyFind, if_neg h0]
      have := ih (by simpa using hp) (fun j hj => by simpa using hmin (j + 1) (by omega))
      rw [this]
      rfl

theorem replFuel_congr {A R : List Char} :
    ∀ f1 f2 (t : List Char), t.length ≤ f1 → t.length ≤ f2 →
      replFuel A R f1 t = replFuel A R f2 t := by
  intro f1
  induction f1 with
  | zero =>
    intro f2 t ht _
    have : t = [] := List.length_eq_zero.mp (Nat.le_zero.mp ht)
    subst this
    cases f2 <;> rfl
  | succ n ih =>
    intro f2 t ht ht2
    match t with
    | [] => cases f2 <;> rfl
    | c :: cs =>
      match f2 with
      | 0 => simp at ht2
      | m + 1 =>
        have hcs : cs.length ≤ n := by
          simp only [List.length_cons] at ht
          omega
        have hcs2 : cs.length ≤ m := by
          simp only [List.length_cons] at ht2
          omega
        rw [replFuel, replFuel]
        by_cases h : A.isPrefixOf (c :: cs)
        · rw [if_pos h, if_pos h]
          have hd : (cs.drop (A.length - 1)).length ≤ cs.length := by
            rw [List.length_drop]
            omega
          rw [ih m _ (le_trans hd hcs) (le_trans hd hcs2)]
        · rw [if_neg h, if_neg h]
          rw [ih m cs hcs hcs2]

theorem replFuel_eq_pyReplace {A R : List Char} (fuel : Nat) (t : List Char)
    (ht : t.length ≤ fuel) : replFuel A R fuel t = pyReplace A R t :=
  replFuel_congr fuel t.length t ht (le_refl _)

theorem pyReplace_nil (A R : List Char) : pyReplace A R [] = [] := rfl

theorem pyReplace_cons (A R : List Char) (c : Char) (cs : List Char) :
    pyReplace A R (c :: cs) =
      if A.isPrefixOf (c :: cs) then R ++ pyReplace A R (cs.drop (A.length - 1))
      else c :: pyReplace A R cs := by
  rw [pyReplace]
  simp only [List.length_cons]
  rw [replFuel]
  by_cases h : A.isPrefixOf (c :: cs)
  · rw [if_pos h, if_pos h]
    rw [replFuel_eq_pyReplace cs.length _ (by rw [List.length_drop]; omega)]
  · rw [if_neg h, if_neg h]
    rw [replFuel_eq_pyReplace cs.length _ (le_refl _)]

theorem pyReplace_cons_pos {A : List Char} (R : List Char) {c : Char} {cs : List Char}
    (hA : A ≠ []) (h : A.isPrefixOf (c :: cs)) :
    pyReplace A R (c :: cs) = R ++ pyReplace A R ((c :: cs).drop A.length) := by
  obtain ⟨a, A', rfl⟩ := List.exists_cons_of_ne_nil hA
  rw [pyReplace_cons, if_pos h]
  simp

theorem pyReplace_of_not_occurs {A R t : List Char} (h : ¬ Occurs A t) : pyReplace A R t = t := by
  induction t with
  | nil => rfl
  | cons c cs ih =>
    rw [occurs_cons_iff] at h
    push_neg at h
    rw [pyReplace_cons, if_neg (fun hp => h.1 (List.isPrefixOf_iff_prefix.mp hp))]
    rw [ih h.2]

theorem pyReplace_first {A R t : List Char} (hA : A ≠ []) :
    ∀ {i}, pyFind A t = some i →
      pyReplace A R t = t.take i ++ R ++ pyReplace A R (t.drop (i + A.length)) := by
  induction t with
  | nil =>
    intro i h
    have hf : A.isPrefixOf ([] : List Char) = false := by
      rw [Bool.eq_false_iff]
      intro hc
      exact hA (List.prefix_nil.mp (List.isPrefixOf_iff_prefix.mp hc))
    rw [pyFind, hf] at h
    exact absurd h (by simp)
  | cons c cs ih =>
    intro i h
    rw [pyFind] at h
    split at h
    · next hp =>
      cases h
      rw [pyReplace_cons_pos R hA hp]
      simp

    · next hp =>
      rw [Option.map_eq_some'] at h
      obtain ⟨i', hi', rfl⟩ := h
      rw [pyReplace_cons, if_neg hp, ih hi']
      have hdrop : (c :: cs).drop (i' + 1 + A.length) = cs.drop (i' + A.length) := by
        rw [show i' + 1 + A.length = (i' + A.length) + 1 by omega, List.drop_succ_cons]
      rw [hdrop]
      simp

theorem pyReplace_anchor_append {A : List Char} (R : List Char) (t : List Char) (hA : A ≠ []) :
    pyReplace A R (A ++ t) = R ++ pyReplace A R t := by
  obtain ⟨a, A', rfl⟩ := List.exists_cons_of_ne_nil hA
  rw [List.cons_append, pyReplace_cons_pos R hA (by
    rw [List.isPrefixOf_iff_prefix]
    exact List.prefix_append _ _)]
  rw [← List.cons_append, List.drop_left]

/-! ### Decomposing prefixes and occurrences over appends -/

theorem prefix_append_cases {A u v : List Char} (h : A <+: u ++ v) : A <+: u ∨ u <+: A := by
  rcases Nat.le_total A.length u.length with hl | hl
  · left
    rw [List.prefix_iff_eq_take] at h ⊢
    rw [List.take_append_eq_append_take, Nat.sub_eq_zero_of_le hl] at h
    simpa using h
  · right
    rw [List.prefix_iff_eq_take, List.take_append_eq_append_take,
      List.take_of_length_le hl] at h
    rw [h]
    exact List.prefix_append _ _

theorem prefix_append_drop {A u v : List Char} (h : A <+: u ++ v) (hu : u <+: A) :
    A.drop u.length <+: v := by
  obtain ⟨w, rfl⟩ := hu
  rw [List.drop_left]
  exact (List.prefix_append_right_inj u).mp h

theorem occurs_append_cases {A u v : List Char} (h : Occurs A (u ++ v)) :
    (∃ j, j < u.length ∧ A <+: u.drop j ++ v) ∨ Occurs A v := by
  obtain ⟨i, hi⟩ := h
  rw [List.drop_append_eq_append_drop] at hi
  rcases Nat.lt_or_ge i u.length with hlt | hge
  · left
    exact ⟨i, hlt, by rwa [Nat.sub_eq_zero_of_le (le_of_lt hlt), List.drop_zero] at hi⟩
  · right
    rw [List.drop_eq_nil_of_le hge, List.nil_append] at hi
    exact ⟨i - u.length, hi⟩

theorem occurs_append_left {A u v : List Char} (h : Occurs A u) : Occurs A (u ++ v) := by
  obtain ⟨i, hi⟩ := h
  exact ⟨i, hi.trans (by rw [List.drop_append_eq_append_drop]; exact List.prefix_append _ _)⟩

theorem occurs_append_right {A u v : List Char} (h : Occurs A v) : Occurs A (u ++ v) := by
  obtain ⟨i, hi⟩ := h
  refine ⟨u.length + i, ?_⟩
  rw [List.drop_append_eq_append_drop, List.drop_eq_nil_of_le (by omega), List.nil_append,
    show u.length + i - u.length = i by omega]
  exact hi

/-! ### The tail scanners and the `SafeFor` side conditions -/

theorem noTailStarts_spec {x y : List Char} (h : noTailStarts x y = true) :
    ∀ j, j < x.length → ¬ x.drop j <+: y := by
  induction x with
  | nil =>
    intro j hj
    simp at hj
  | cons c cs ih =>
    rw [noTailStarts, Bool.and_eq_true] at h
    intro j hj
    match j with
    | 0 =>
      intro hc
      have h1 := h.1
      rw [Bool.not_eq_true', Bool.eq_false_iff] at h1
      exact h1 (List.isPrefixOf_iff_prefix.mpr (by simpa using hc))
    | j + 1 =>
      rw [List.drop_succ_cons]
      exact ih h.2 j (by simpa using Nat.lt_of_succ_lt_succ hj)

theorem noAlignTails_spec {x y : List Char} (h : noAlignTails x y = true) :
    ∀ j, j < x.length → ¬ x.drop j <+: y ∧ ¬ y <+: x.drop j := by
  induction x with
  | nil =>
    intro j hj
    simp at hj
  | cons c cs ih =>
    rw [noAlignTails, Bool.and_eq_true, Bool.and_eq_true] at h
    intro j hj
    match j with
    | 0 =>
      constructor
      · intro hc
        have h1 := h.1.1
        rw [Bool.not_eq_true', Bool.eq_false_iff] at h1
        exact h1 (List.isPrefixOf_iff_prefix.mpr (by simpa using hc))
      · intro hc
        have h1 := h.1.2
        rw [Bool.not_eq_true', Bool.eq_false_iff] at h1
        exact h1 (List.isPrefixOf_iff_prefix.mpr (by simpa using hc))
    | j + 1 =>
      rw [List.drop_succ_cons]
      exact ih h.2 j (by simpa using Nat.lt_of_succ_lt_succ hj)

theorem safeFor_ne_nil {p r : List Char} (h : SafeFor p r) : p ≠ [] := by
  intro hp
  subst hp
  have h1 := h.1
  rw [pyFind_eq_none_iff] at h1
  exact h1 ⟨0, List.nil_prefix⟩

theorem safeFor_not_occurs {p r : List Char} (h : SafeFor p r) : ¬ Occurs p r :=
  pyFind_eq_none_iff.mp h.1

theorem safeFor_rep_tail {p r : List Char} (h : SafeFor p r) :
    ∀ j, j < r.length → ¬ r.drop j <+: p :=
  noTailStarts_spec h.2.1

theorem safeFor_pat_tail {p r : List Char} (h : SafeFor p r) :
    ∀ q, 0 < q → q < p.length → ¬ p.drop q <+: r ∧ ¬ r <+: p.drop q := by
  intro q hq hql
  have h3 := noAlignTails_spec h.2.2 (q - 1) (by rw [List.length_drop]; omega)
  rw [List.drop_drop, show 1 + (q - 1) = q by omega] at h3
  exact h3

/-! ### Replacement never materialises a protected pattern

`suffix_align`: if a nonempty proper suffix of `A` is a prefix of the
output of a replacement satisfying the alignment conditions, then it was
already a prefix of the input.  `not_occurs_pyReplace`: replacing `B` by
`RB` inside `t` cannot produce an occurrence of `A` when `SafeFor A RB`
holds and either `A = B` (self-replacement) or `A` did not occur in `t`. -/

theorem suffix_align {A B RB : List Char} (hB : B ≠ [])
    (hc : ∀ q, 0 < q → q < A.length → ¬ A.drop q <+: RB ∧ ¬ RB <+: A.drop q) :
    ∀ n t, t.length ≤ n → ∀ q, 0 < q → q < A.length →
      A.drop q <+: pyReplace B RB t → A.drop q <+: t := by
  intro n
  induction n with
  | zero =>
    intro t ht q hq hql hpre
    have : t = [] := List.length_eq_zero.mp (Nat.le_zero.mp ht)
    subst this
    rwa [pyReplace_nil] at hpre
  | succ n ih =>
    intro t ht q hq hql hpre
    match t with
    | [] => rwa [pyReplace_nil] at hpre
    | c :: cs =>
      by_cases hm : B.isPrefixOf (c :: cs)
      · rw [pyReplace_cons_pos RB hB hm] at hpre
        rcases prefix_append_cases hpre with h1 | h1
        · exact absurd h1 (hc q hq hql).1
        · exact absurd h1 (hc q hq hql).2
      · rw [pyReplace_cons, if_neg hm] at hpre
        rw [List.drop_eq_getElem_cons hql] at hpre ⊢
        rw [List.cons_prefix_cons] at hpre ⊢
        refine ⟨hpre.1, ?_⟩
        rcases Nat.lt_or_ge (q + 1) A.length with hlt | hge
        · have hcs : cs.length ≤ n := by
            simp only [List.length_cons] at ht
            omega
          exact ih cs hcs (q + 1) (by omega) hlt hpre.2
        · rw [List.drop_eq_nil_of_le hge]
          exact List.nil_prefix

theorem not_occurs_pyReplace {A B RB : List Char} (hB : B ≠ []) (hsafe : SafeFor A RB) :
    ∀ n t, t.length ≤ n → (A = B ∨ ¬ Occurs A t) → ¬ Occurs A (pyReplace B RB t) := by
  intro n
  induction n with
  | zero =>
    intro t ht _ ho
    have : t = [] := List.length_eq_zero.mp (Nat.le_zero.mp ht)
    subst this
    rw [pyReplace_nil] at ho
    exact safeFor_ne_nil hsafe (occurs_nil_iff.mp ho)
  | succ n ih =>
    intro t ht hstart ho
    match t with
    | [] =>
      rw [pyReplace_nil] at ho
      exact safeFor_ne_nil hsafe (occurs_nil_iff.mp ho)
    | c :: cs =>
      have hA : A ≠ [] := safeFor_ne_nil hsafe
      have hcs : cs.length ≤ n := by
        simp only [List.length_cons] at ht
        omega
      by_cases hm : B.isPrefixOf (c :: cs)
      · rw [pyReplace_cons_pos RB hB hm] at ho
        rcases occurs_append_cases ho with ⟨j, hj, hpre⟩ | ho2
        · rcases prefix_append_cases hpre with h1 | h1
          · exact safeFor_not_occurs hsafe ⟨j, h1⟩
          · exact safeFor_rep_tail hsafe j hj h1
        · refine ih ((c :: cs).drop B.length) ?_ ?_ ho2
          · rw [List.length_drop]
            have hBpos : 0 < B.length := List.length_pos.mpr hB
            simp only [List.length_cons]
            omega
          · rcases hstart with hAB | hno
            · exact Or.inl hAB
            · exact Or.inr (fun hocc => hno (occurs_drop hocc))
      · rw [pyReplace_cons, if_neg hm] at ho
        rcases occurs_cons_iff.mp ho with hp | ho2
        · obtain ⟨a, A', rfl⟩ := List.exists_cons_of_ne_nil hA
          rw [List.cons_prefix_cons] at hp
          have hA' : A' <+: cs := by
            by_cases hn : A' = []
            · subst hn
              exact List.nil_prefix
            · have h1 : (a :: A').drop 1 <+: pyReplace B RB cs := by
                simpa using hp.2
              have h2 := suffix_align hB (safeFor_pat_tail hsafe) cs.length cs (le_refl _)
                1 (by omega) (by simpa using Nat.succ_lt_succ (List.length_pos.mpr hn)) h1
              simpa using h2
          have hAcs : a :: A' <+: c :: cs := by
            rw [List.cons_prefix_cons]
            exact ⟨hp.1, hA'⟩
          rcases hstart with hAB | hno
          · rw [hAB] at hAcs
            exact hm (List.isPrefixOf_iff_prefix.mpr hAcs)
          · exact hno ⟨0, hAcs⟩
        · refine ih cs hcs ?_ ho2
          rcases hstart with hAB | hno
          · exact Or.inl hAB
          · exact Or.inr (fun ho3 => hno (occurs_cons ho3))

/-- Self-replacement removes every occurrence of the pattern (under the
alignment side conditions). -/
theorem pyFind_pyReplace_self {A R : List Char} (hsafe : SafeFor A R) (t : List Char) :
    pyFind A (pyReplace A R t) = none :=
  pyFind_eq_none_iff.mpr
    (not_occurs_pyReplace (safeFor_ne_nil hsafe) hsafe t.length t (le_refl _) (Or.inl rfl))

/-- Replacing some other pattern preserves the absence of `A` (under the
alignment side conditions). -/
theorem pyFind_pyReplace_keeps_none {A B RB : List Char} (hB : B ≠ []) (hsafe : SafeFor A RB)
    {t : List Char} (h : pyFind A t = none) : pyFind A (pyReplace B RB t) = none :=
  pyFind_eq_none_iff.mpr
    (not_occurs_pyReplace hB hsafe t.length t (le_refl _)
      (Or.inr (pyFind_eq_none_iff.mp h)))

/-! ### Concrete side conditions of the two scripts (all checked by `decide`) -/

theorem safeFor_fix3_self : SafeFor fix3Anchor fix3Repl :=
  ⟨by decide, by decide, by decide⟩

theorem safeFor_fix1_self : SafeFor fix1Anchor fix1Repl :=
  ⟨by decide, by decide, by decide⟩

theorem safeFor_fix2_self : SafeFor fix2Pattern fix2Repl :=
  ⟨by decide, by decide, by decide⟩

theorem safeFor_fix3_fix1 : SafeFor fix3Anchor fix1Repl :=
  ⟨by decide, by decide, by decide⟩

theorem safeFor_fix3_fix2 : SafeFor fix3Anchor fix2Repl :=
  ⟨by decide, by decide, by decide⟩

theorem safeFor_fix1_fix2 : SafeFor fix1Anchor fix2Repl :=
  ⟨by decide, by decide, by decide⟩

theorem fix3Anchor_ne_nil : fix3Anchor ≠ [] := by decide

theorem fix1Anchor_ne_nil : fix1Anchor ≠ [] := by decide

theorem fix2Pattern_ne_nil : fix2Pattern ≠ [] := by decide

/-! ### `update-doc.py`: the splice equation and its consequences -/

theorem anchor_split : updateAnchor = insPre ++ insPost := by decide

theorem updateDoc_ip_le {c : List Char} {ip : Nat} (h : pyFind updateAnchor c = some ip) :
    ip + updateAnchor.length ≤ c.length := by
  have h1 := (pyFind_some_at h).length_le
  rw [List.length_drop] at h1
  have h2 : 0 < updateAnchor.length := by decide
  omega

theorem updateDoc_take_pre {c : List Char} {ip : Nat} (h : pyFind updateAnchor c = some ip) :
    c.take (ip + insPre.length) = c.take ip ++ insPre := by
  obtain ⟨rest, hr⟩ := pyFind_some_at h
  rw [List.take_add]
  congr 1
  rw [← hr, anchor_split, List.append_assoc]
  exact List.take_left' rfl

theorem updateDoc_drop_pre {c : List Char} {ip : Nat} (h : pyFind updateAnchor c = some ip) :
    ∃ rest, updateAnchor ++ rest = c.drop ip ∧
      c.drop (ip + insPre.length) = insPost ++ rest ∧
      c.drop (ip + updateAnchor.length) = rest := by
  obtain ⟨rest, hr⟩ := pyFind_some_at h
  refine ⟨rest, hr, ?_, ?_⟩
  · rw [← List.drop_drop, ← hr, anchor_split, List.append_assoc]
    exact List.drop_left' rfl
  · rw [← List.drop_drop, ← hr]
    exact List.drop_left' rfl

theorem updateDoc_splice {c : List Char} {ip : Nat} (h : pyFind updateAnchor c = some ip) :
    updateDocPatched c ip =
      c.take (ip + insPre.length) ++ phase72Doc ++ c.drop (ip + insPre.length) := by
  obtain ⟨rest, _, hdrop, hdrop2⟩ := updateDoc_drop_pre h
  rw [updateDocPatched, updateDoc_take_pre h, hdrop, hdrop2]
  simp [List.append_assoc]

theorem noTailP_append {x y z : List Char}
    (hx : ∀ j, j < x.length → ¬ x.drop j <+: z)
    (hy : ∀ j, j < y.length → ¬ y.drop j <+: z) :
    ∀ j, j < (x ++ y).length → ¬ (x ++ y).drop j <+: z := by
  intro j hj hp
  rw [List.drop_append_eq_append_drop] at hp
  rcases Nat.lt_or_ge j x.length with hlt | hge
  · rw [Nat.sub_eq_zero_of_le (le_of_lt hlt), List.drop_zero] at hp
    exact hx j hlt ((List.prefix_append _ y).trans hp)
  · rw [List.drop_eq_nil_of_le hge, List.nil_append] at hp
    have hjy : j - x.length < y.length := by
      rw [List.length_append] at hj
      omega
    exact hy _ hjy hp

theorem not_occurs_append {A x y : List Char} (hx : ¬ Occurs A x) (hy : ¬ Occurs A y)
    (ht : ∀ j, j < x.length → ¬ x.drop j <+: A) : ¬ Occurs A (x ++ y) := by
  intro h
  rcases occurs_append_cases h with ⟨j, hj, hp⟩ | h2
  · rcases prefix_append_cases hp with h1 | h1
    · exact hx ⟨j, h1⟩
    · exact ht j hj h1
  · exact hy h2

theorem doc_noTail : ∀ j, j < phase72Doc.length → ¬ phase72Doc.drop j <+: updateAnchor := by
  show ∀ j, j < (docPart1 ++ (docPart2 ++ (docPart3 ++ docPart4))).length → _
  refine noTailP_append (noTailStarts_spec (by decide))
    (noTailP_append (noTailStarts_spec (by decide))
      (noTailP_append (noTailStarts_spec (by decide)) (noTailStarts_spec (by decide))))

theorem doc_not_occurs : ¬ Occurs updateAnchor phase72Doc := by
  show ¬ Occurs updateAnchor (docPart1 ++ (docPart2 ++ (docPart3 ++ docPart4)))
  refine not_occurs_append (pyFind_eq_none_iff.mp (by decide))
    (not_occurs_append (pyFind_eq_none_iff.mp (by decide))
      (not_occurs_append (pyFind_eq_none_iff.mp (by decide))
        (pyFind_eq_none_iff.mp (by decide))
        (noTailStarts_spec (by decide)))
      (noTailStarts_spec (by decide)))
    (noTailStarts_spec (by decide))

theorem doc_length_ge : docPart1.length ≤ phase72Doc.length := by
  show docPart1.length ≤ (docPart1 ++ (docPart2 ++ (docPart3 ++ docPart4))).length
  rw [List.length_append]
  omega

/-- Occurrences of the anchor in the patched output of `update-doc.py` can
only come from occurrences in the part of the input after the replaced
anchor: the inserted block and the seams around it never align with the
anchor. -/
theorem updateDoc_occurs_localized {c : List Char} {ip : Nat}
    (h : pyFind updateAnchor c = some ip)
    (hocc : Occurs updateAnchor (updateDocPatched c ip)) :
    Occurs updateAnchor (c.drop (ip + updateAnchor.length)) := by
  obtain ⟨rest, hr, hdrop, hdrop2⟩ := updateDoc_drop_pre h
  rw [hdrop2]
  by_contra hrest
  have hiple := updateDoc_ip_le h
  have hlenA : updateAnchor.length = 80 := by decide
  have hlenPre : insPre.length = 63 := by decide
  have hlenPost : insPost.length = 17 := by decide
  have hd1 : docPart1.length = 631 := by decide
  rw [updateDoc_splice h, updateDoc_take_pre h, hdrop] at hocc
  rw [List.append_assoc] at hocc
  -- hocc : Occurs A ((c.take ip ++ insPre) ++ (phase72Doc ++ (insPost ++ rest)))
  rcases occurs_append_cases hocc with ⟨i, hi, hpre⟩ | hR
  · -- an occurrence starting inside `c.take ip ++ insPre`
    have hXlen : (c.take ip ++ insPre).length = ip + insPre.length := by
      rw [List.length_append, List.length_take_of_le (by omega)]
    rcases prefix_append_cases hpre with h1 | h1
    · -- the occurrence would lie wholly inside `c.take ip ++ insPre`
      have hle := h1.length_le
      rw [List.length_drop, hXlen] at hle
      rcases Nat.lt_or_ge i ip with hlt | hge
      · -- an anchor occurrence in `c` before `ip`: contradicts minimality of find
        have htr : updateAnchor <+: c.drop i := by
          have hX : (c.take ip ++ insPre).drop i = ((c.take (ip + insPre.length)).drop i) := by
            rw [updateDoc_take_pre h]
          rw [hX, List.drop_take] at h1
          exact h1.trans (List.take_prefix _ _)
        exact pyFind_some_min h i hlt htr
      · omega
    · -- the occurrence straddles out of `c.take ip ++ insPre`
      have hcont := prefix_append_drop hpre h1
      rcases Nat.lt_or_ge i ip with hlt | hge
      · -- starts before `ip`: `insPre` sits strictly inside the anchor
        have hXsplit : (c.take ip ++ insPre).drop i = (c.take ip).drop i ++ insPre := by
          rw [List.drop_append_eq_append_drop,
            Nat.sub_eq_zero_of_le (by rw [List.length_take_of_le (by omega)]; omega),
            List.drop_zero]
        rw [hXsplit] at h1
        obtain ⟨w, hw⟩ := h1
        have hple : insPre <+: updateAnchor.drop ((c.take ip).drop i).length := by
          rw [← hw, List.append_assoc, List.drop_left]
          exact List.prefix_append _ _
        have hulen : ((c.take ip).drop i).length = ip - i := by
          rw [List.length_drop, List.length_take_of_le (by omega)]
        have hkpos : 0 < ip - i := by omega
        have hkle : ip - i < updateAnchor.length := by
          have hlw := congrArg List.length hw
          simp only [List.length_append, hulen] at hlw
          omega
        have hnot := (noAlignTails_spec (by decide : noAlignTails (updateAnchor.drop 1) insPre = true)
          (ip - i - 1) (by rw [List.length_drop]; omega)).2
        rw [List.drop_drop, show 1 + (ip - i - 1) = ip - i by omega] at hnot
        rw [hulen] at hple
        exact hnot hple
      · -- starts inside the re-emitted `insPre`
        have hXsplit : (c.take ip ++ insPre).drop i = insPre.drop (i - ip) := by
          rw [List.drop_append_eq_append_drop,
            List.drop_eq_nil_of_le (by rw [List.length_take_of_le (by omega)]; omega),
            List.nil_append, List.length_take_of_le (by omega)]
        rw [hXsplit] at h1 hcont
        rcases Nat.eq_or_lt_of_le hge with heq | hgt
        · -- i = ip: the occurrence continues with `insPost`, but the block starts otherwise
          subst heq
          simp only [Nat.sub_self, List.drop_zero] at h1 hcont
          have hpost : updateAnchor.drop insPre.length = insPost := by decide
          rw [hpost] at hcont
          rcases prefix_append_cases hcont with h2 | h2
          · -- insPost <+: phase72Doc: refuted on the first chunk
            rcases prefix_append_cases (show insPost <+: docPart1 ++ (docPart2 ++ (docPart3 ++ docPart4)) from h2) with h3 | h3
            · exact (by decide : ¬ insPost <+: docPart1) h3
            · have := h3.length_le
              omega
          · have := h2.length_le
            have hdoc := doc_length_ge
            omega
        · -- i > ip: a nonempty proper tail of `insPre` would start the anchor
          exact noTailStarts_spec (by decide : noTailStarts (insPre.drop 1) updateAnchor = true)
            (i - ip - 1) (by rw [List.length_drop]; omega)
            (by rw [List.drop_drop, show 1 + (i - ip - 1) = i - ip by omega]; exact h1)
  · -- an occurrence starting inside `phase72Doc ++ (insPost ++ rest)`
    rcases occurs_append_cases hR with ⟨m, hm, hpre⟩ | hY
    · rcases prefix_append_cases hpre with h1 | h1
      · exact doc_not_occurs ⟨m, h1⟩
      · exact doc_noTail m hm h1
    · rcases occurs_append_cases hY with ⟨n, hn, hpre⟩ | hZ
      · rcases prefix_append_cases hpre with h1 | h1
        · have := h1.length_le
          rw [List.length_drop] at this
          omega
        · exact noTailStarts_spec (by decide : noTailStarts insPost updateAnchor = true) n hn h1
      · exact hrest hZ

/-! ### Claim theorems -/

/-- Claim C2: for every content from which the required insertion anchor is
absent, `update-doc.py` prints a diagnostic, exits nonzero, and performs no
write, leaving the target file unchanged. -/
theorem c2_required_anchor_missing_no_write (c : List Char)
    (h : pyFind updateAnchor c = none) :
    (updateDocRun c).written = none ∧ (updateDocRun c).exitCode = 1 ∧
      (updateDocRun c).printed = ["ERROR: Could not find insertion point"] := by
  simp [updateDocRun, h]

/-- Witness for C2 at the concrete content `[]`. -/
theorem c2_witness :
    pyFind updateAnchor [] = none ∧
    ((updateDocRun []).written = none ∧ (updateDocRun []).exitCode = 1 ∧
      (updateDocRun []).printed = ["ERROR: Could not find insertion point"]) :=
  ⟨by decide, c2_required_anchor_missing_no_write [] (by decide)⟩

/-- Counterexample for claim C3: on content equal to the anchor itself the
script writes `insPre ++ phase72Doc ++ insPost`, which is not the content
with the block placed at the anchor's end offset
(`updateAnchor ++ phase72Doc`): the block lands inside the anchor, after
its `---` line. -/
theorem c3_counterexample :
    (updateDocRun updateAnchor).written = some (insPre ++ (phase72Doc ++ insPost)) ∧
    insPre ++ (phase72Doc ++ insPost) ≠ updateAnchor ++ phase72Doc := by
  have hf : pyFind updateAnchor updateAnchor = some 0 := by decide
  constructor
  · simp only [updateDocRun, hf, updateDocPatched, List.take_zero, Nat.zero_add,
      List.drop_length, List.nil_append, List.append_nil, List.append_assoc]
  · intro he
    rw [anchor_split, List.append_assoc] at he
    have he2 : phase72Doc ++ insPost = insPost ++ phase72Doc := by
      have := List.append_cancel_left he
      exact this
    have ht : (phase72Doc ++ insPost).take 4 = (insPost ++ phase72Doc).take 4 := by rw [he2]
    have hd1len : docPart1.length = 631 := by decide
    have hdl : 4 - phase72Doc.length = 0 := by
      have := doc_length_ge
      omega
    have hpl : 4 - insPost.length = 0 := by decide
    rw [List.take_append_eq_append_take, List.take_append_eq_append_take, hdl, hpl,
      List.take_zero, List.take_zero, List.append_nil, List.append_nil] at ht
    have hdoc4 : phase72Doc.take 4 = docPart1.take 4 := by
      show (docPart1 ++ (docPart2 ++ (docPart3 ++ docPart4))).take 4 = _
      have h40 : 4 - docPart1.length = 0 := by omega
      rw [List.take_append_eq_append_take, h40, List.take_zero, List.append_nil]
    rw [hdoc4] at ht
    exact (by decide : docPart1.take 4 ≠ insPost.take 4) ht

/-- Claim C3 as amended: when the anchor is found at `ip`, the block is
inserted at the single offset `ip + insPre.length`, i.e. immediately after
the prefix of the anchor ending in `---\n`, inside the anchor and not at
its end offset. -/
theorem c3_amended_insert_inside_anchor (c : List Char) (ip : Nat)
    (h : pyFind updateAnchor c = some ip) :
    (updateDocRun c).written =
      some (c.take (ip + insPre.length) ++ phase72Doc ++ c.drop (ip + insPre.length)) := by
  simp only [updateDocRun, h]
  rw [updateDoc_splice h]

/-- Witness for the amended C3 at the concrete content `updateAnchor`. -/
theorem c3_amended_witness :
    pyFind updateAnchor updateAnchor = some 0 ∧
    (updateDocRun updateAnchor).written =
      some (updateAnchor.take (0 + insPre.length) ++ phase72Doc ++
        updateAnchor.drop (0 + insPre.length)) :=
  ⟨by decide, c3_amended_insert_inside_anchor updateAnchor 0 (by decide)⟩

/-- Claim C10: when the anchor is found, the written content is the input
with the documentation block inserted at exactly one offset; every
character before and after that offset is preserved and the output length
is the input length plus the block length. -/
theorem c10_insertion_frame (c : List Char) (ip : Nat)
    (h : pyFind updateAnchor c = some ip) :
    (updateDocRun c).written =
      some (c.take (ip + insPre.length) ++ phase72Doc ++ c.drop (ip + insPre.length)) ∧
    (c.take (ip + insPre.length) ++ phase72Doc ++ c.drop (ip + insPre.length)).length =
      c.length + phase72Doc.length := by
  have hip := updateDoc_ip_le h
  have hprele : insPre.length ≤ updateAnchor.length := by decide
  constructor
  · simp only [updateDocRun, h]
    rw [updateDoc_splice h]
  · simp only [List.length_append, List.length_drop]
    rw [List.length_take_of_le (by omega)]
    omega

/-- Witness for C10 at the concrete content `updateAnchor`. -/
theorem c10_witness :
    pyFind updateAnchor updateAnchor = some 0 ∧
    ((updateDocRun updateAnchor).written =
      some (updateAnchor.take (0 + insPre.length) ++ phase72Doc ++
        updateAnchor.drop (0 + insPre.length)) ∧
    (updateAnchor.take (0 + insPre.length) ++ phase72Doc ++
        updateAnchor.drop (0 + insPre.length)).length =
      updateAnchor.length + phase72Doc.length) :=
  ⟨by decide, c10_insertion_frame updateAnchor 0 (by decide)⟩

/-- Claim C4: a failing read aborts either script before any write with a
nonzero exit code, and a successful run writes exactly once: the fully
transformed content for `apply-fixes.py`, and for `update-doc.py` either
nothing (anchor missing) or the fully patched content.  (The only regular
expression in the sources is a fixed escaped literal, which always
compiles, and the `re.sub` call precedes the write, so a pattern failure
could also never leave a partial write.) -/
theorem c4_all_or_nothing :
    ((applyFixesMain none).written = none ∧ (applyFixesMain none).exitCode ≠ 0) ∧
    ((updateDocMain none).written = none ∧ (updateDocMain none).exitCode ≠ 0) ∧
    (∀ c, (applyFixesMain (some c)).written = some (applyFixesContent c)) ∧
    (∀ c, (updateDocMain (some c)).written = none ∨
      ∃ ip, pyFind updateAnchor c = some ip ∧
        (updateDocMain (some c)).written = some (updateDocPatched c ip)) := by
  refine ⟨⟨rfl, by decide⟩, ⟨rfl, by decide⟩, fun c => rfl, fun c => ?_⟩
  cases hf : pyFind updateAnchor c with
  | none =>
    left
    simp [updateDocMain, updateDocRun, hf]
  | some ip =>
    right
    exact ⟨ip, rfl, by simp [updateDocMain, updateDocRun, hf]⟩

/-- Counterexample for claim C7: with anchor `"a"`, replacement `"a"` and
content `"a"`, the anchor is found at offset 0, the replacement is applied,
and yet the anchor still appears at that offset in the result — so the
claim's "A no longer appears at that offset range" fails when the anchor
occurs in the replacement. -/
theorem c7_counterexample :
    pyFind "a".toList "a".toList = some 0 ∧
    pyReplace "a".toList "a".toList "a".toList = "a".toList ∧
    "a".toList <+: (pyReplace "a".toList "a".toList "a".toList).drop 0 :=
  ⟨by decide, by decide, by decide⟩

/-- Claim C7 as amended: when the nonempty anchor `A` first occurs at `i`,
the replacement `R` stands in place of that occurrence (the result is
`c.take i ++ R ++ <recursively replaced tail>`), and — provided `A` does
not occur in `R` and no suffix of either string aligns with a prefix of
the other (`SafeFor A R`, which holds for all three anchor/replacement
pairs of `apply-fixes.py`) — `A` no longer occurs anywhere in the result,
in particular not at that offset range. -/
theorem c7_amended_first_occurrence_replaced (A R c : List Char) (i : Nat)
    (hA : A ≠ []) (h : pyFind A c = some i) :
    pyReplace A R c = c.take i ++ R ++ pyReplace A R (c.drop (i + A.length)) ∧
    (SafeFor A R → pyFind A (pyReplace A R c) = none) :=
  ⟨pyReplace_first hA h, fun hs => pyFind_pyReplace_self hs c⟩

/-- Witness for the amended C7 at the script's Fix #3 anchor/replacement
pair applied to content equal to the anchor. -/
theorem c7_amended_witness :
    (fix3Anchor ≠ [] ∧ pyFind fix3Anchor fix3Anchor = some 0) ∧
    (pyReplace fix3Anchor fix3Repl fix3Anchor =
        fix3Anchor.take 0 ++ fix3Repl ++
          pyReplace fix3Anchor fix3Repl (fix3Anchor.drop (0 + fix3Anchor.length)) ∧
      (SafeFor fix3Anchor fix3Repl →
        pyFind fix3Anchor (pyReplace fix3Anchor fix3Repl fix3Anchor) = none)) :=
  ⟨⟨by decide, by decide⟩,
    c7_amended_first_occurrence_replaced fix3Anchor fix3Repl fix3Anchor 0 (by decide) (by decide)⟩

/-- Claim C8: the `re.sub` substitution (whose pattern is the escaped
literal `tokenExchangeUsed: !!this\.tokenExchangeService`) replaces all
non-overlapping matches left to right: on a match-free content it is the
identity, on a match at `i` it substitutes and continues on the tail, and
in particular substituting `foo` by `bar` in `foofoo` yields `barbar`. -/
theorem c8_regex_sub_replaces_all :
    pyReplace "foo".toList "bar".toList "foofoo".toList = "barbar".toList ∧
    (∀ c, pyFind fix2Pattern c = none → applyFix2 c = c) ∧
    (∀ c i, pyFind fix2Pattern c = some i →
      applyFix2 c = c.take i ++ fix2Repl ++ applyFix2 (c.drop (i + fix2Pattern.length))) :=
  ⟨by decide,
    fun _ h => pyReplace_of_not_occurs (pyFind_eq_none_iff.mp h),
    fun _ _ h => pyReplace_first fix2Pattern_ne_nil h⟩

/-- Witness for C8 at content equal to the Fix #2 pattern itself. -/
theorem c8_witness :
    pyFind fix2Pattern fix2Pattern = some 0 ∧
    applyFix2 fix2Pattern =
      fix2Pattern.take 0 ++ fix2Repl ++ applyFix2 (fix2Pattern.drop (0 + fix2Pattern.length)) :=
  ⟨by decide, c8_regex_sub_replaces_all.2.2 fix2Pattern 0 (by decide)⟩

/-- Claim C9: the literal replacement (Python `str.replace`) substitutes
every non-overlapping occurrence, not only the first: the `n`-fold
concatenation of a nonempty anchor maps to the `n`-fold concatenation of
the replacement, and at the first occurrence the tail is again replaced
recursively. -/
theorem c9_replaces_every_occurrence (A R : List Char) (hA : A ≠ []) :
    (∀ n, pyReplace A R (repConcat n A) = repConcat n R) ∧
    (∀ c i, pyFind A c = some i →
      pyReplace A R c = c.take i ++ R ++ pyReplace A R (c.drop (i + A.length))) := by
  constructor
  · intro n
    induction n with
    | zero => rfl
    | succ m ih =>
      rw [repConcat, repConcat, pyReplace_anchor_append R _ hA, ih]
  · exact fun _ _ h => pyReplace_first hA h

/-- Witness for C9: two adjacent copies of `"ab"` are both replaced. -/
theorem c9_witness :
    "ab".toList ≠ [] ∧
    pyReplace "ab".toList "cd".toList (repConcat 2 "ab".toList) = repConcat 2 "cd".toList :=
  ⟨by decide, (c9_replaces_every_occurrence "ab".toList "cd".toList (by decide)).1 2⟩

/-- Claim C1 (code bug): on content `[]`, from which the Fix #3 anchor is
absent, `apply-fixes.py` leaves the content unchanged (the no-op half of
the claim holds) but still writes, exits 0, and prints its fixed success
lines, none of which mentions the missing anchors — the missing literal
anchor is silently swallowed instead of being reported as unapplied. -/
theorem c1_missing_anchor_silently_swallowed :
    pyReplace fix3Anchor fix3Repl [] = [] ∧
    (applyFixesRun []).written = some [] ∧
    (applyFixesRun []).exitCode = 0 ∧
    (applyFixesRun []).printed = applyFixesSuccessLines ∧
    applyFixesSuccessLines.all
      (fun l => (pyFind fix3Anchor l.toList).isNone && (pyFind fix1Anchor l.toList).isNone) =
      true :=
  ⟨rfl, rfl, rfl, rfl, by decide⟩

/-- Claim C6 (code bug): `update-doc.py` with a missing required anchor
prints a diagnostic and exits 1 without writing (the first half of the
claim holds), but `apply-fixes.py` with missing optional anchors exits 0
while printing only its fixed success lines — no warning list of missing
anchors exists in its output. -/
theorem c6_exit_codes :
    (updateDocRun []).exitCode = 1 ∧
    (updateDocRun []).printed = ["ERROR: Could not find insertion point"] ∧
    (updateDocRun []).written = none ∧
    (applyFixesRun []).exitCode = 0 ∧
    (applyFixesRun []).printed = applyFixesSuccessLines ∧
    applyFixesSuccessLines.all
      (fun l => (pyFind fix3Anchor l.toList).isNone &&
        ((pyFind fix1Anchor l.toList).isNone && (pyFind fix2Pattern l.toList).isNone)) =
      true :=
  ⟨rfl, rfl, rfl, rfl, rfl, by decide⟩

/-- Counterexample for claim C5: if the original content contains the
anchor twice (`updateAnchor ++ updateAnchor`), the first run of
`update-doc.py` patches the first occurrence, and a second run on the
already-patched content finds the surviving occurrence and writes a
further-modified file — it neither reports the anchors as unapplied nor
maps the patched content to itself. -/
theorem c5_counterexample :
    (updateDocRun (updateAnchor ++ updateAnchor)).written =
      some (updateDocPatched (updateAnchor ++ updateAnchor) 0) ∧
    (updateDocRun (updateDocPatched (updateAnchor ++ updateAnchor) 0)).written ≠ none ∧
    (updateDocRun (updateDocPatched (updateAnchor ++ updateAnchor) 0)).written ≠
      some (updateDocPatched (updateAnchor ++ updateAnchor) 0) := by
  have hf1 : pyFind updateAnchor (updateAnchor ++ updateAnchor) = some 0 := by decide
  have hC' : updateDocPatched (updateAnchor ++ updateAnchor) 0 =
      (insPre ++ phase72Doc ++ insPost) ++ updateAnchor := by
    rw [updateDocPatched, List.take_zero, List.nil_append, Nat.zero_add, List.drop_left]
  have hocc : Occurs updateAnchor (updateDocPatched (updateAnchor ++ updateAnchor) 0) := by
    rw [hC']
    exact ⟨(insPre ++ phase72Doc ++ insPost).length, by rw [List.drop_left]⟩
  refine ⟨by simp [updateDocRun, hf1], ?_⟩
  cases hf2 : pyFind updateAnchor (updateDocPatched (updateAnchor ++ updateAnchor) 0) with
  | none => exact absurd hocc (pyFind_eq_none_iff.mp hf2)
  | some ip2 =>
    constructor
    · simp [updateDocRun, hf2]
    · simp only [updateDocRun, hf2, ne_eq, Option.some.injEq]
      intro he
      have hip := updateDoc_ip_le hf2
      have hprele : insPre.length ≤ updateAnchor.length := by decide
      have hlen := congrArg List.length he
      rw [updateDoc_splice hf2] at hlen
      rw [List.length_append, List.length_append, List.length_drop,
        List.length_take_of_le (by omega)] at hlen
      have hd1len : docPart1.length = 631 := by decide
      have hdg := doc_length_ge
      omega

/-- Claim C5 as amended: (a) the content transform of `apply-fixes.py` is
idempotent — a second run maps every already-patched content to itself,
because after one run none of its three anchors occurs any more — but the
second run still prints the same fixed success lines and exits 0 instead
of reporting the anchors as unapplied; (b) for `update-doc.py`, when the
anchor occurred exactly once in the pre-patch content, the patched output
no longer contains it, so a second run prints the error diagnostic, exits
1 and writes nothing (content preserved); with several anchor occurrences
a second run patches the survivor instead (see the counterexample). -/
theorem c5_amended_rerun_behaviour :
    (∀ c, applyFixesContent (applyFixesContent c) = applyFixesContent c) ∧
    (∀ c, pyFind fix3Anchor (applyFixesContent c) = none ∧
        pyFind fix1Anchor (applyFixesContent c) = none ∧
        pyFind fix2Pattern (applyFixesContent c) = none) ∧
    (∀ c, (applyFixesRun c).printed = applyFixesSuccessLines ∧
        (applyFixesRun c).exitCode = 0) ∧
    (∀ c ip, pyFind updateAnchor c = some ip →
      pyFind updateAnchor (c.drop (ip + updateAnchor.length)) = none →
      updateDocRun (updateDocPatched c ip) =
        ⟨none, 1, ["ERROR: Could not find insertion point"]⟩) := by
  have habs : ∀ c, pyFind fix3Anchor (applyFixesContent c) = none ∧
      pyFind fix1Anchor (applyFixesContent c) = none ∧
      pyFind fix2Pattern (applyFixesContent c) = none := by
    intro c
    refine ⟨?_, ?_, ?_⟩
    · exact pyFind_pyReplace_keeps_none fix2Pattern_ne_nil safeFor_fix3_fix2
        (pyFind_pyReplace_keeps_none fix1Anchor_ne_nil safeFor_fix3_fix1
          (pyFind_pyReplace_self safeFor_fix3_self c))
    · exact pyFind_pyReplace_keeps_none fix2Pattern_ne_nil safeFor_fix1_fix2
        (pyFind_pyReplace_self safeFor_fix1_self (applyFix3 c))
    · exact pyFind_pyReplace_self safeFor_fix2_self (applyFix1 (applyFix3 c))
  refine ⟨?_, habs, fun c => ⟨rfl, rfl⟩, ?_⟩
  · intro c
    obtain ⟨h3, h1, h2⟩ := habs c
    show applyFix2 (applyFix1 (applyFix3 (applyFixesContent c))) = applyFixesContent c
    rw [show applyFix3 (applyFixesContent c) = applyFixesContent c from
      pyReplace_of_not_occurs (pyFind_eq_none_iff.mp h3)]
    rw [show applyFix1 (applyFixesContent c) = applyFixesContent c from
      pyReplace_of_not_occurs (pyFind_eq_none_iff.mp h1)]
    exact pyReplace_of_not_occurs (pyFind_eq_none_iff.mp h2)
  · intro c ip h hrest
    have hnone : pyFind updateAnchor (updateDocPatched c ip) = none := by
      rw [pyFind_eq_none_iff]
      intro hocc
      exact (pyFind_eq_none_iff.mp hrest) (updateDoc_occurs_localized h hocc)
    simp [updateDocRun, hnone]

/-- Witness for the amended C5: content equal to the anchor alone (one
occurrence); the patched output makes a second run fail and write
nothing. -/
theorem c5_amended_witness :
    (pyFind updateAnchor updateAnchor = some 0 ∧
      pyFind updateAnchor (updateAnchor.drop (0 + updateAnchor.length)) = none) ∧
    updateDocRun (updateDocPatched updateAnchor 0) =
      ⟨none, 1, ["ERROR: Could not find insertion point"]⟩ :=
  ⟨⟨by decide, by decide⟩,
    c5_amended_rerun_behaviour.2.2.2 updateAnchor 0 (by decide) (by decide)⟩
